import Mathlib

/-!
Verification of the column-normalization engine and query-construction layer
of a profile-ingest/search backend.  The Python source is shallowly embedded:
each cleaning function of `column_cleaners.py` becomes a pure Lean function on
`List Char` (wrapped to `String`), the safe-literal parsing performed by
`ast.literal_eval` is modelled by an executable recursive-descent reader over
a `PyVal` value tree, and the two query builders of `search_service.py` become
functions returning `Except SearchError SearchBody`, where an `Except.error`
result corresponds to the Python function raising before any store call.
-/

namespace LinkedInSearch

/-! ### Character and whitespace helpers (Python `str.strip`, `re.sub`) -/

/-- Whitespace as recognised by Python `str.strip` and the regex class. -/
def pyIsSpace (c : Char) : Bool :=
  c = ' ' || c = '\t' || c = '\n' || c = '\r' || c = Char.ofNat 11 || c = Char.ofNat 12

/-- Drop trailing whitespace, Python `str.rstrip`. -/
def dropTrail (cs : List Char) : List Char :=
  (cs.reverse.dropWhile pyIsSpace).reverse

/-- Python `str.strip`: leading and trailing whitespace removed. -/
def pyStrip (cs : List Char) : List Char :=
  dropTrail (cs.dropWhile pyIsSpace)

/-- String-level `str.strip`. -/
def pyStripS (s : String) : String :=
  String.mk (pyStrip s.toList)

/-- Embedding of `re.sub(r"\s+", " ", text)`: every maximal run of whitespace
becomes one single space.  The flag records whether the previous character was
part of a whitespace run already emitted. -/
def collapseAux : Bool → List Char → List Char
  | _, [] => []
  | prevSpace, c :: rest =>
    if pyIsSpace c then
      if prevSpace then collapseAux true rest
      else ' ' :: collapseAux true rest
    else c :: collapseAux false rest

/-- Test whether the first character is `c` (Python `str.startswith` on a
one-character pattern). -/
def headIs (c : Char) : List Char → Bool
  | [] => false
  | a :: _ => a = c

/-- Test whether the last character is `c` (Python `str.endswith`). -/
def lastIs (c : Char) (cs : List Char) : Bool :=
  headIs c cs.reverse

/-- Embedding of `re.search("[a-zA-Z]:", text)`: some letter immediately
followed by a colon occurs somewhere in the text. -/
def hasDriveLetter : List Char → Bool
  | [] => false
  | [_] => false
  | a :: b :: rest => (a.isAlpha && b = ':') || hasDriveLetter (b :: rest)

/-- Embedding of `re.search(r"\.(csv|txt|xlsx|json|zip)$", text, IGNORECASE)`:
the text ends in one of the known file extensions, case-insensitively. -/
def endsWithExt (cs : List Char) : Bool :=
  let low := cs.map Char.toLower
  [".csv", ".txt", ".xlsx", ".json", ".zip"].any
    (fun e => e.toList.isSuffixOf low)

/-! ### Small full-match recognisers for the numeric regexes -/

/-- Consume one or more digits; return the rest of the input, or `none` when
no digit starts the input (the `\d+` regex piece). -/
def digits1 : List Char → Option (List Char)
  | [] => none
  | c :: rest => if c.isDigit then some (rest.dropWhile Char.isDigit) else none

/-- Consume one or more characters of the class `[\d,]`; return the rest. -/
def digitComma1 : List Char → Option (List Char)
  | [] => none
  | c :: rest =>
    if c.isDigit || c = ',' then
      some (rest.dropWhile (fun x => x.isDigit || x = ','))
    else none

/-- Full match of `\d+-\d+`. -/
def isIntRange (cs : List Char) : Bool :=
  match digits1 cs with
  | some ('-' :: r) =>
    (match digits1 r with
     | some [] => true
     | _ => false)
  | _ => false

/-- Full match of `\d+\+`. -/
def isIntPlus (cs : List Char) : Bool :=
  match digits1 cs with
  | some ['+'] => true
  | _ => false

/-- Full match of `\d+\.\d+`. -/
def isSimpleFloat (cs : List Char) : Bool :=
  match digits1 cs with
  | some ('.' :: r) =>
    (match digits1 r with
     | some [] => true
     | _ => false)
  | _ => false

/-- Full match of `[\d,]+-[\d,]+`. -/
def isCommaRange (cs : List Char) : Bool :=
  match digitComma1 cs with
  | some ('-' :: r) =>
    (match digitComma1 r with
     | some [] => true
     | _ => false)
  | _ => false

/-- Full match of `<[\d,]+`. -/
def isLtNum (cs : List Char) : Bool :=
  match cs with
  | '<' :: r =>
    (match digitComma1 r with
     | some [] => true
     | _ => false)
  | _ => false

/-- Full match of `>[\d,]+`. -/
def isGtNum (cs : List Char) : Bool :=
  match cs with
  | '>' :: r =>
    (match digitComma1 r with
     | some [] => true
     | _ => false)
  | _ => false

/-- Full match of `\d{4}-\d{2}-\d{2}`. -/
def isDateYMD (cs : List Char) : Bool :=
  match cs with
  | [a, b, c, d, h1, e, f, h2, g, i] =>
    a.isDigit && b.isDigit && c.isDigit && d.isDigit && h1 = '-' &&
    e.isDigit && f.isDigit && h2 = '-' && g.isDigit && i.isDigit
  | _ => false

/-- Full match of `\d{4}-\d{2}(-\d{2})?`. -/
def isDateYMorYMD (cs : List Char) : Bool :=
  match cs with
  | [a, b, c, d, h1, e, f] =>
    a.isDigit && b.isDigit && c.isDigit && d.isDigit && h1 = '-' &&
    e.isDigit && f.isDigit
  | _ => isDateYMD cs

/-! ### The six text-column cleaners of `column_cleaners.py` -/

/-- Core of `clean_full_name` on character lists. -/
def cleanFullNameL (text : List Char) : List Char :=
  if text = [] then []
  else
    let t := pyStrip text
    if t.contains '\\' || t.contains '/' || hasDriveLetter t || endsWithExt t then []
    else collapseAux false (t.filter (fun c => c.isAlpha || pyIsSpace c))

/-- `clean_full_name`: drop path-like text, keep only letters and spaces,
collapse whitespace runs. -/
def clean_full_name (text : String) : String :=
  String.mk (cleanFullNameL text.toList)

/-- Shared guard: the stripped text starts with `[` or `{` or equals `[]`. -/
def looksSerialized (t : List Char) : Bool :=
  headIs '[' t || headIs '{' t || t = ['[', ']']

/-- Core of `clean_job_title`. -/
def cleanJobTitleL (text : List Char) : List Char :=
  if text = [] then []
  else
    let t := pyStrip text
    if looksSerialized t then [] else t

/-- `clean_job_title`: reject serialized collections, else pass through. -/
def clean_job_title (text : String) : String :=
  String.mk (cleanJobTitleL text.toList)

/-- Characters allowed by the `clean_industry` character-class check. -/
def industryAllowed (c : Char) : Bool :=
  c.isAlpha || pyIsSpace c || c = ',' || c = '&' || c = '-'

/-- Core of `clean_industry`. -/
def cleanIndustryL (text : List Char) : List Char :=
  if text = [] then []
  else
    let t := pyStrip text
    if looksSerialized t || t.any Char.isDigit then []
    else if t.any (fun c => !industryAllowed c) then []
    else pyStrip (collapseAux false t)

/-- `clean_industry`: reject collections, digits and foreign characters, else
collapse whitespace and strip. -/
def clean_industry (text : String) : String :=
  String.mk (cleanIndustryL text.toList)

/-- Core of `clean_summary`. -/
def cleanSummaryL (text : List Char) : List Char :=
  if text = [] then []
  else
    let t := pyStrip text
    if looksSerialized t then []
    else if isIntRange t || isIntPlus t || isSimpleFloat t then []
    else t

/-- `clean_summary`: reject collections and pure numeric shapes, else pass
through. -/
def clean_summary (text : String) : String :=
  String.mk (cleanSummaryL text.toList)

/-- Core of `clean_location_country`. -/
def cleanLocationCountryL (text : List Char) : List Char :=
  if text = [] then []
  else
    let t := pyStrip text
    if looksSerialized t then []
    else if isDateYMD t then []
    else if isCommaRange t then []
    else if isLtNum t || isGtNum t then []
    else if isSimpleFloat t then []
    else if t.length = 1 then []
    else t

/-- `clean_location_country`: reject collections, dates, numeric ranges,
bounded comparisons, floats and single characters, else pass through. -/
def clean_location_country (text : String) : String :=
  String.mk (cleanLocationCountryL text.toList)

/-- Core of `clean_job_summary`. -/
def cleanJobSummaryL (text : List Char) : List Char :=
  if text = [] then []
  else
    let t := pyStrip text
    if t.length = 1 || (t ≠ [] && t.all Char.isDigit) || isDateYMorYMD t then []
    else t

/-- `clean_job_summary`: reject single characters, all-digit text and dates,
else pass through. -/
def clean_job_summary (text : String) : String :=
  String.mk (cleanJobSummaryL text.toList)

/-! ### Python literal values and the `ast.literal_eval` model

The tag-column cleaners parse their cell with `ast.literal_eval`.  We model
the resulting value space as `PyVal` and the safe-literal reader as an
executable fuel-based recursive-descent function over the character list.
Exotic literal spellings (exponent floats, underscored digits, adjacent
string concatenation, triple quotes) are not recognised and make the reader
fail, which the cleaners treat exactly like a parse error. -/

inductive PyVal where
  | noneV
  | boolV (b : Bool)
  | intV (n : Int)
  | floatV (lex : String)
  | strV (s : String)
  | listV (items : List PyVal)
  | tupleV (items : List PyVal)
  | setV (items : List PyVal)
  | dictV (entries : List (PyVal × PyVal))

/-- The single-quote character. -/
def squote : Char := Char.ofNat 39

/-- The double-quote character. -/
def dquote : Char := Char.ofNat 34

/-- Translation of one backslash escape inside a string literal; unknown
escapes keep the backslash, as Python does. -/
def escSeq (e : Char) : List Char :=
  if e = 'n' then ['\n']
  else if e = 't' then ['\t']
  else if e = 'r' then ['\r']
  else if e = '\\' then ['\\']
  else if e = squote then [squote]
  else if e = dquote then [dquote]
  else if e = 'b' then [Char.ofNat 8]
  else if e = 'f' then [Char.ofNat 12]
  else if e = 'v' then [Char.ofNat 11]
  else if e = 'a' then [Char.ofNat 7]
  else if e = '0' then [Char.ofNat 0]
  else ['\\', e]

/-- Read the body of a quoted string up to the closing quote `q`, translating
escapes; returns the content and the remaining input. -/
def parseStrBody (q : Char) : List Char → Option (List Char × List Char)
  | [] => none
  | c :: rest =>
    if c = '\\' then
      match rest with
      | [] => none
      | e :: rest2 =>
        match parseStrBody q rest2 with
        | some (s, r) => some (escSeq e ++ s, r)
        | none => none
    else if c = q then some ([], rest)
    else
      match parseStrBody q rest with
      | some (s, r) => some (c :: s, r)
      | none => none

/-- Numeric value of a digit string. -/
def natOfDigits (ds : List Char) : Nat :=
  ds.foldl (fun a c => a * 10 + (c.toNat - 48)) 0

/-- Read a signed integer or simple decimal literal. -/
def parseNumber (cs : List Char) : Option (PyVal × List Char) :=
  let sc :=
    match cs with
    | '-' :: r => (true, r)
    | '+' :: r => (false, r)
    | _ => (false, cs)
  let sign := sc.1
  let cs1 := sc.2
  let ds := cs1.takeWhile Char.isDigit
  let r1 := cs1.dropWhile Char.isDigit
  if ds = [] then none
  else
    match r1 with
    | '.' :: r2 =>
      let fs := r2.takeWhile Char.isDigit
      let r3 := r2.dropWhile Char.isDigit
      let lex := (if sign then ['-'] else []) ++ ds ++ '.' :: fs
      some (.floatV (String.mk lex), r3)
    | _ =>
      let n : Int := Int.ofNat (natOfDigits ds)
      some (.intV (if sign then -n else n), r1)

/-- Identifier characters, used to delimit the keywords None, True, False. -/
def identChar (c : Char) : Bool :=
  c.isAlphanum || c = '_'

mutual

/-- Read one literal value.  Fuel bounds the recursion depth; the top-level
entry point supplies enough fuel for any input of the given length. -/
def parseVal : Nat → List Char → Option (PyVal × List Char)
  | 0, _ => none
  | fuel + 1, cs0 =>
    let cs := cs0.dropWhile pyIsSpace
    match cs with
    | [] => none
    | c :: rest =>
      if c = squote || c = dquote then
        match parseStrBody c rest with
        | some (s, r) => some (.strV (String.mk s), r)
        | none => none
      else if c = '[' then
        match rest.dropWhile pyIsSpace with
        | ']' :: r2 => some (.listV [], r2)
        | r =>
          match parseItems fuel ']' r with
          | some (vs, rr) => some (.listV vs, rr)
          | none => none
      else if c = '(' then
        match rest.dropWhile pyIsSpace with
        | ')' :: r2 => some (.tupleV [], r2)
        | r =>
          match parseItems fuel ')' r with
          | some (vs, rr) => some (.tupleV vs, rr)
          | none => none
      else if c = '{' then
        match rest.dropWhile pyIsSpace with
        | '}' :: r2 => some (.dictV [], r2)
        | r =>
          match parseEntries fuel r with
          | some (es, rr) => some (.dictV es, rr)
          | none =>
            match parseItems fuel '}' r with
            | some (vs, rr) => some (.setV vs, rr)
            | none => none
      else if c.isAlpha then
        let w := cs.takeWhile identChar
        let r := cs.dropWhile identChar
        if w = "None".toList then some (.noneV, r)
        else if w = "True".toList then some (.boolV true, r)
        else if w = "False".toList then some (.boolV false, r)
        else none
      else parseNumber cs

/-- Read a nonempty comma-separated item sequence ending in `close`. -/
def parseItems : Nat → Char → List Char → Option (List PyVal × List Char)
  | 0, _, _ => none
  | fuel + 1, close, cs =>
    match parseVal fuel cs with
    | none => none
    | some (v, r0) =>
      match r0.dropWhile pyIsSpace with
      | [] => none
      | c :: rest =>
        if c = close then some ([v], rest)
        else if c = ',' then
          match rest.dropWhile pyIsSpace with
          | [] => none
          | d :: rest2 =>
            if d = close then some ([v], rest2)
            else
              match parseItems fuel close (d :: rest2) with
              | some (vs, rr) => some (v :: vs, rr)
              | none => none
        else none

/-- Read a nonempty `key : value` entry sequence ending in a closing brace. -/
def parseEntries : Nat → List Char → Option (List (PyVal × PyVal) × List Char)
  | 0, _ => none
  | fuel + 1, cs =>
    match parseVal fuel cs with
    | none => none
    | some (k, r0) =>
      match r0.dropWhile pyIsSpace with
      | ':' :: r1 =>
        match parseVal fuel r1 with
        | none => none
        | some (v, r2) =>
          match r2.dropWhile pyIsSpace with
          | '}' :: rest => some ([(k, v)], rest)
          | ',' :: rest =>
            (match rest.dropWhile pyIsSpace with
             | '}' :: rest2 => some ([(k, v)], rest2)
             | rest3 =>
               match parseEntries fuel rest3 with
               | some (es, rr) => some ((k, v) :: es, rr)
               | none => none)
          | _ => none
      | _ => none

end

/-- Fuel large enough for any literal of the given length. -/
def literalFuel (cs : List Char) : Nat := 2 * cs.length + 4

/-- Model of `ast.literal_eval` restricted to the literal grammar: returns the
parsed value when the whole input (up to surrounding whitespace) is one
literal, `none` when parsing fails. -/
def literal_eval (s : String) : Option PyVal :=
  let cs := s.toList
  match parseVal (literalFuel cs) cs with
  | some (v, r) => if r.dropWhile pyIsSpace = [] then some v else none
  | none => none

/-- Python `dict.get` with a string key: the value of the last entry whose key
is the string `k`. -/
def pyGetStr (entries : List (PyVal × PyVal)) (k : String) : Option PyVal :=
  (entries.reverse.find? (fun e =>
    match e.1 with
    | .strV s => s = k
    | _ => false)).map (fun e => e.2)

/-! ### The three tag-column cleaners -/

/-- Innermost guard of the `clean_education` loop body: the looked-up `name`
must be a string whose strip is nonempty, and the stripped name is kept. -/
def eduName : Option PyVal → Option String
  | some (.strV n) => if pyStripS n ≠ "" then some (pyStripS n) else none
  | _ => none

/-- Middle guard of the loop body: the looked-up `school` must be a dict, in
which `name` is then looked up. -/
def eduSchool : Option PyVal → Option String
  | some (.dictV sd) => eduName (pyGetStr sd "name")
  | _ => none

/-- Outer guard of the loop body: the element must be a dict, in which
`school` is looked up. -/
def eduItemName : PyVal → Option String
  | .dictV d => eduSchool (pyGetStr d "school")
  | _ => none

/-- The extraction loop of `clean_education`: for each list element that is a
dict whose `school` entry is a dict whose `name` entry is a string with
nonempty strip, collect that stripped name. -/
def eduLoop : List PyVal → List String
  | [] => []
  | item :: rest =>
    match eduItemName item with
    | some n => n :: eduLoop rest
    | none => eduLoop rest

/-- Join with the `" | "` separator, on character lists. -/
def joinPipeL : List (List Char) → List Char
  | [] => []
  | [x] => x
  | x :: y :: rest => x ++ ' ' :: '|' :: ' ' :: joinPipeL (y :: rest)

/-- Join a list of strings with `" | "`, Python `" | ".join`. -/
def joinPipeS (parts : List String) : String :=
  String.mk (joinPipeL (parts.map String.toList))

/-- The school-name list extracted by `clean_education` before joining: empty
on empty input, on text that is not bracketed, on parse failure and on
non-list values. -/
def educationNamesOf (text : String) : List String :=
  if text = "" then []
  else
    let t := pyStrip text.toList
    if !(headIs '[' t && lastIs ']' t) then []
    else
      match literal_eval (String.mk t) with
      | some (.listV items) => eduLoop items
      | _ => []

/-- `clean_education`: school names joined by `" | "`; every early return of
the source yields the empty string, which is the join of the empty list. -/
def clean_education (text : String) : String :=
  joinPipeS (educationNamesOf text)

/-- The extraction loop of `clean_experience`: company and title names,
joined `"company : title"` when both are present. -/
def expLoop : List PyVal → List String
  | [] => []
  | item :: rest =>
    match item with
    | .dictV d =>
      let company_name :=
        match pyGetStr d "company" with
        | some (.dictV cd) =>
          (match pyGetStr cd "name" with
           | some (.strV n) => pyStripS n
           | _ => "")
        | _ => ""
      let title_name :=
        match pyGetStr d "title" with
        | some (.dictV td) =>
          (match pyGetStr td "name" with
           | some (.strV n) => pyStripS n
           | _ => "")
        | _ => ""
      if company_name = "" then
        (if title_name = "" then expLoop rest else title_name :: expLoop rest)
      else if title_name = "" then company_name :: expLoop rest
      else (company_name ++ " : " ++ title_name) :: expLoop rest
    | _ => expLoop rest

/-- The company/title list of `clean_experience` before joining. -/
def experienceItemsOf (text : String) : List String :=
  if text = "" then []
  else
    let t := pyStrip text.toList
    if !(headIs '[' t && lastIs ']' t) then []
    else
      match literal_eval (String.mk t) with
      | some (.listV items) => expLoop items
      | _ => []

/-- `clean_experience`: extracted items joined by `" | "`. -/
def clean_experience (text : String) : String :=
  joinPipeS (experienceItemsOf text)

/-- Full match of the international-phone pattern `\+\d{7,15}`. -/
def isPhone (cs : List Char) : Bool :=
  match cs with
  | '+' :: r => r.all Char.isDigit && decide (7 ≤ r.length) && decide (r.length ≤ 15)
  | _ => false

/-- The extraction loop of `clean_skills`: keep stripped nonempty string
items that are not phone numbers. -/
def skillsLoop : List PyVal → List String
  | [] => []
  | item :: rest =>
    match item with
    | .strV s =>
      let c := pyStripS s
      if c = "" then skillsLoop rest
      else if isPhone c.toList then skillsLoop rest
      else c :: skillsLoop rest
    | _ => skillsLoop rest

/-- The surviving skill list of `clean_skills` before joining. -/
def skillsItemsOf (text : String) : List String :=
  if text = "" then []
  else
    let t := pyStrip text.toList
    if !(headIs '[' t && lastIs ']' t) then []
    else
      match literal_eval (String.mk t) with
      | some (.listV items) => skillsLoop items
      | _ => []

/-- `clean_skills`: surviving skills joined by `" | "`. -/
def clean_skills (text : String) : String :=
  joinPipeS (skillsItemsOf text)

/-! ### The cleaner dispatch table, `get_cleaner` -/

/-- The dispatch table of `get_cleaner`, one cleaning function per declared
column, in source order. -/
def cleaners : List (String × (String → String)) :=
  [("full_name", clean_full_name),
   ("job_title", clean_job_title),
   ("industry", clean_industry),
   ("summary", clean_summary),
   ("location_country", clean_location_country),
   ("education", clean_education),
   ("experience", clean_experience),
   ("skills", clean_skills),
   ("job_summary", clean_job_summary)]

/-- The nine declared column names, as listed in `ingest_data.py`. -/
def columnsList : List String :=
  ["full_name", "job_title", "industry", "summary",
   "location_country", "education", "experience",
   "skills", "job_summary"]

/-- `get_cleaner`: look the column up in the table; an unknown column name is
a `ValueError` raised at dispatch time, modelled as an `Except.error`. -/
def get_cleaner (column_name : String) : Except String (String → String) :=
  match cleaners.find? (fun p => p.1 = column_name) with
  | some p => Except.ok p.2
  | none => Except.error ("No cleaner found for column " ++ column_name)

/-! ### The query builders of `search_service.py`

The Python functions build a query body and then call the store; a raise
before the body is built is modelled as `Except.error`, so an `Except.ok`
result is exactly a query issued to the store. -/

/-- Columns indexed as full-text fields. -/
def TEXT_COLUMNS : List String :=
  ["full_name", "job_title", "industry", "summary",
   "location_country", "job_summary"]

/-- Columns indexed as keyword (tag) fields. -/
def KEYWORD_COLUMNS : List String :=
  ["education", "experience", "skills"]

/-- All declared columns. -/
def ALL_COLUMNS : List String := TEXT_COLUMNS ++ KEYWORD_COLUMNS

/-- One per-field clause of the boolean query. -/
inductive Clause where
  | matchC (field : String) (query : String)
  | termC (field : String) (query : String)
deriving DecidableEq

/-- The boolean query: a `should` disjunction with a minimum-match count, or
a `must` conjunction. -/
inductive BoolQuery where
  | shouldQ (clauses : List Clause) (minimum_should_match : Nat)
  | mustQ (clauses : List Clause)
deriving DecidableEq

/-- The query document handed to the store. -/
structure SearchBody where
  query : BoolQuery
  highlightFields : List String
  preTags : List String
  postTags : List String
  size : Int
deriving DecidableEq

/-- The errors raised by the query builders, carrying exactly the column
names their messages name. -/
inductive SearchError where
  | invalidColumns (cols : List String)
  | invalidField (col : String)
  | emptyQuery
deriving DecidableEq

/-- The column names an error message names. -/
def namedColumns : SearchError → List String
  | .invalidColumns cols => cols
  | .invalidField col => [col]
  | .emptyQuery => []

/-- Keep-first duplicate removal with an accumulator of already kept
elements; this is the semantics of both a Python dict comprehension over
repeated keys and of pandas `drop_duplicates`. -/
def dropDupsAux {α : Type} [DecidableEq α] (seen : List α) : List α → List α
  | [] => []
  | a :: rest =>
    if a ∈ seen then dropDupsAux seen rest
    else a :: dropDupsAux (a :: seen) rest

/-- Remove later duplicates, keeping the first occurrence of each element. -/
def dropDuplicates {α : Type} [DecidableEq α] (l : List α) : List α :=
  dropDupsAux [] l

/-- The per-column clause kind of both builders: `match` for a text column,
`term` otherwise. -/
def clauseFor (col : String) (query : String) : Clause :=
  if col ∈ TEXT_COLUMNS then Clause.matchC col query else Clause.termC col query

/-- `search_columns`: OR-mode search.  All columns are validated up front; on
any unknown column the call fails naming every offending column and no body
is built. -/
def search_columns (columns : List String) (query : String) (size : Int) :
    Except SearchError SearchBody :=
  if columns.all (fun col => col ∈ ALL_COLUMNS) then
    Except.ok
      { query := BoolQuery.shouldQ (columns.map fun col => clauseFor col query) 1
        highlightFields :=
          dropDuplicates (columns.filter (fun col => col ∈ TEXT_COLUMNS))
        preTags := ["<em>"]
        postTags := ["</em>"]
        size := size }
  else
    Except.error
      (SearchError.invalidColumns (columns.filter (fun col => col ∉ ALL_COLUMNS)))

/-- `search_columns` with the `size` parameter left at its default of 10. -/
def search_columns_default (columns : List String) (query : String) :
    Except SearchError SearchBody :=
  search_columns columns query 10

/-- The clause-accumulating loop of `advanced_search`: fields are examined in
mapping order and the first undeclared field raises, naming only itself. -/
def buildMustClauses : List (String × String) → Except SearchError (List Clause)
  | [] => Except.ok []
  | (field, value) :: rest =>
    if field ∈ ALL_COLUMNS then
      match buildMustClauses rest with
      | Except.ok cs => Except.ok (clauseFor field value :: cs)
      | Except.error e => Except.error e
    else Except.error (SearchError.invalidField field)

/-- `advanced_search`: AND-mode search over an ordered field-to-query
mapping.  An empty mapping raises immediately; an undeclared field raises in
the loop; otherwise the conjunction body is built. -/
def advanced_search (field_queries : List (String × String)) (size : Int) :
    Except SearchError SearchBody :=
  if field_queries = [] then Except.error SearchError.emptyQuery
  else
    match buildMustClauses field_queries with
    | Except.error e => Except.error e
    | Except.ok cs =>
      Except.ok
        { query := BoolQuery.mustQ cs
          highlightFields :=
            dropDuplicates
              ((field_queries.map Prod.fst).filter (fun f => f ∈ TEXT_COLUMNS))
          preTags := ["<em>"]
          postTags := ["</em>"]
          size := size }

/-- `advanced_search` with the `size` parameter left at its default of 10. -/
def advanced_search_default (field_queries : List (String × String)) :
    Except SearchError SearchBody :=
  advanced_search field_queries 10

/-! ### The ingest pipeline of `ingest_data.py` -/

/-- One raw row restricted to the nine declared columns, each cell already
coerced to a string as `str(row.get(col, ""))` does. -/
structure RawRecord where
  full_name : String
  job_title : String
  industry : String
  summary : String
  location_country : String
  education : String
  experience : String
  skills : String
  job_summary : String
deriving DecidableEq

/-- One document as indexed: text columns hold the cleaned string, keyword
columns hold the split list. -/
structure NormalizedRecord where
  full_name : String
  job_title : String
  industry : String
  summary : String
  location_country : String
  education : List String
  experience : List String
  skills : List String
  job_summary : String
deriving DecidableEq

/-- Python `str.split("|")`: split at every pipe character. -/
def splitPipe : List Char → List (List Char)
  | [] => [[]]
  | c :: rest =>
    if c = '|' then [] :: splitPipe rest
    else
      match splitPipe rest with
      | [] => [[c]]
      | p :: ps => (c :: p) :: ps

/-- The keyword-column handling of the ingest loop: an empty cleaned value
becomes the empty list, otherwise the value is split at `|`, each item
stripped, and empty items dropped. -/
def splitClean (cleaned : String) : List String :=
  if cleaned = "" then []
  else
    ((splitPipe cleaned.toList).map (fun l => String.mk (pyStrip l))).filter
      (fun s => s ≠ "")

/-- The education value handed to the store for one raw cell. -/
def ingestEducation (raw : String) : List String :=
  splitClean (clean_education raw)

/-- The per-row document construction of the ingest loop. -/
def normalizeRecord (r : RawRecord) : NormalizedRecord :=
  { full_name := clean_full_name r.full_name
    job_title := clean_job_title r.job_title
    industry := clean_industry r.industry
    summary := clean_summary r.summary
    location_country := clean_location_country r.location_country
    education := ingestEducation r.education
    experience := splitClean (clean_experience r.experience)
    skills := splitClean (clean_skills r.skills)
    job_summary := clean_job_summary r.job_summary }

/-- The ingest pipeline: `df.drop_duplicates(subset=columns)` runs first, on
the raw cell values, and the surviving rows are then cleaned and indexed in
order. -/
def ingestDocs (rows : List RawRecord) : List NormalizedRecord :=
  (dropDuplicates rows).map normalizeRecord

/-- Following the spec's words for deduplication: walk the rows in order
keeping a list of all earlier rows, and drop a row exactly when it is an
exact duplicate of some earlier row, so the first occurrence wins and order
is otherwise preserved. -/
def keepFirstAux {α : Type} [DecidableEq α] (earlier : List α) : List α → List α
  | [] => []
  | a :: rest =>
    if a ∈ earlier then keepFirstAux (earlier ++ [a]) rest
    else a :: keepFirstAux (earlier ++ [a]) rest

/-- Spec-side keep-first deduplication over the whole row sequence. -/
def keepFirstSpec {α : Type} [DecidableEq α] (l : List α) : List α :=
  keepFirstAux [] l

/-- Spec-side innermost step: a string `name` is stripped and contributes
unless the stripped name is empty. -/
def specFromName : Option PyVal → Option String
  | some (.strV n) => if pyStripS n = "" then none else some (pyStripS n)
  | _ => none

/-- Spec-side middle step: a `school` mapping has its `name` projected. -/
def specFromSchool : Option PyVal → Option String
  | some (.dictV sd) => specFromName (pyGetStr sd "name")
  | _ => none

/-- Following the spec's words for the education projection, amended to drop
names that strip to empty: an element contributes exactly when it is a
mapping whose `school` entry is a mapping whose `name` entry is a string with
nonempty strip, and it contributes that stripped name. -/
def specSchoolName (v : PyVal) : Option String :=
  match v with
  | .dictV d => specFromSchool (pyGetStr d "school")
  | _ => none

/-! ### Concrete example inputs used by the claim theorems -/

/-- Raw row whose only nonempty cell is a clean full name. -/
def rowJane1 : RawRecord :=
  { full_name := "Jane Doe", job_title := "", industry := "", summary := "",
    location_country := "", education := "", experience := "", skills := "",
    job_summary := "" }

/-- Raw row differing from `rowJane1` only by a digit that cleaning removes,
so the two rows normalize identically. -/
def rowJane2 : RawRecord :=
  { rowJane1 with full_name := "Jane Doe1" }

/-- The raw education cell whose single school name contains a pipe. -/
def eduPipeCell : String :=
  "[\x7b\x27school\x27: \x7b\x27name\x27: \x27A|B\x27\x7d\x7d]"

/-- The raw education cell of the spec's own worked example. -/
def eduTwoSchools : String :=
  "[\x7b\x27school\x27: \x7b\x27name\x27: \x27MIT\x27\x7d\x7d, \x7b\x27school\x27: \x7b\x27name\x27: \x27Cairo Univ\x27\x7d\x7d]"

/-- No two adjacent whitespace-class characters. -/
def NoAdjSpace (l : List Char) : Prop :=
  l.Chain' (fun a b => ¬(pyIsSpace a = true ∧ pyIsSpace b = true))

/-- Raw education cell with a single school named MIT. -/
def eduMITCell : String :=
  "[\x7b\x27school\x27: \x7b\x27name\x27: \x27MIT\x27\x7d\x7d]"

/-! ### Helper lemmas about duplicate removal -/

lemma mem_dropDupsAux {α : Type} [DecidableEq α] (seen : List α) (l : List α) (a : α) :
    a ∈ dropDupsAux seen l ↔ a ∈ l ∧ a ∉ seen := by
  induction l generalizing seen with
  | nil => simp [dropDupsAux]
  | cons x rest ih =>
    by_cases hx : x ∈ seen
    · rw [dropDupsAux, if_pos hx, ih]
      constructor
      · rintro ⟨h1, h2⟩
        exact ⟨List.mem_cons_of_mem _ h1, h2⟩
      · rintro ⟨h1, h2⟩
        rcases List.mem_cons.mp h1 with h | h
        · exact absurd (h ▸ hx) h2
        · exact ⟨h, h2⟩
    · rw [dropDupsAux, if_neg hx]
      constructor
      · intro h
        rcases List.mem_cons.mp h with h | h
        · exact ⟨h ▸ List.mem_cons_self x rest, h ▸ hx⟩
        · rcases (ih _).mp h with ⟨h1, h2⟩
          refine ⟨List.mem_cons_of_mem _ h1, fun hs => h2 ?_⟩
          exact List.mem_cons_of_mem _ hs
      · rintro ⟨h1, h2⟩
        rcases List.mem_cons.mp h1 with h | h
        · exact h ▸ List.mem_cons_self x _
        · by_cases hax : a = x
          · exact hax ▸ List.mem_cons_self x _
          · refine List.mem_cons_of_mem _ ((ih _).mpr ⟨h, ?_⟩)
            intro hs
            rcases List.mem_cons.mp hs with h3 | h3
            · exact hax h3
            · exact h2 h3

lemma mem_dropDuplicates {α : Type} [DecidableEq α] (l : List α) (a : α) :
    a ∈ dropDuplicates l ↔ a ∈ l := by
  simp [dropDuplicates, mem_dropDupsAux]

lemma text_not_keyword : ∀ c : String, c ∈ TEXT_COLUMNS → c ∉ KEYWORD_COLUMNS := by
  intro c hc
  fin_cases hc <;> decide

/-! ### Helper lemmas about the query builders -/

lemma search_columns_ok {cols : List String} {q : String} {size : Int}
    {body : SearchBody} (h : search_columns cols q size = Except.ok body) :
    body.highlightFields = dropDuplicates (cols.filter (fun col => col ∈ TEXT_COLUMNS)) ∧
    body.size = size := by
  unfold search_columns at h
  split at h
  · cases h
    exact ⟨rfl, rfl⟩
  · simp at h

lemma advanced_search_ok {fq : List (String × String)} {size : Int}
    {body : SearchBody} (h : advanced_search fq size = Except.ok body) :
    body.highlightFields =
      dropDuplicates ((fq.map Prod.fst).filter (fun f => f ∈ TEXT_COLUMNS)) ∧
    body.size = size := by
  unfold advanced_search at h
  split at h
  · simp at h
  · split at h
    · simp at h
    · cases h
      exact ⟨rfl, rfl⟩

lemma buildMust_find {fq : List (String × String)} {f : String}
    (h : (fq.map Prod.fst).find? (fun c => decide (c ∉ ALL_COLUMNS)) = some f) :
    buildMustClauses fq = Except.error (SearchError.invalidField f) := by
  induction fq with
  | nil => simp [List.find?] at h
  | cons p rest ih =>
    obtain ⟨field, value⟩ := p
    rw [List.map_cons] at h
    by_cases hf : field ∈ ALL_COLUMNS
    · rw [List.find?_cons_of_neg] at h
      · rw [buildMustClauses, if_pos hf, ih h]
      · simp [hf]
    · rw [List.find?_cons_of_pos] at h
      · cases h
        rw [buildMustClauses, if_neg hf]
      · simp [hf]

lemma buildMust_sizeless (fq : List (String × String)) (size size2 : Int) :
    (advanced_search fq size).isOk = (advanced_search fq size2).isOk := by
  unfold advanced_search
  by_cases h0 : fq = []
  · rw [if_pos h0, if_pos h0]
  · rw [if_neg h0, if_neg h0]
    cases buildMustClauses fq <;> rfl

/-! ### Claim C7 -/

/-- C7: an AND-mode request with an empty field mapping fails with the
empty-query error; no query body is ever built, so the store is never
invoked. -/
theorem c7_empty_and_request_rejected :
    ∀ size : Int, advanced_search [] size = Except.error SearchError.emptyQuery := by
  intro size
  rfl

/-! ### Claim C4 -/

/-- C4 counterexample: an AND-mode request with two undeclared fields fails
naming only the first of them, not the full list, refuting the claim that
both modes name every offending column. -/
theorem c4_counterexample_and_mode_names_first_only :
    advanced_search [("bad1", "x"), ("bad2", "y")] 10 =
      Except.error (SearchError.invalidField "bad1") ∧
    namedColumns (SearchError.invalidField "bad1") = ["bad1"] ∧
    "bad2" ∉ namedColumns (SearchError.invalidField "bad1") := by
  refine ⟨rfl, rfl, ?_⟩
  decide

/-- C4 amended: OR-mode validation fails with an error naming the full
nonempty list of offending columns; AND-mode fails at the first undeclared
field in mapping order, naming only that field.  In both modes the result is
an error, so no query body is handed to the store. -/
theorem c4_invalid_column_rejection (cols : List String) (q : String)
    (size : Int) (fq : List (String × String)) (f : String) :
    ((¬ ∀ c ∈ cols, c ∈ ALL_COLUMNS) →
      search_columns cols q size =
        Except.error (SearchError.invalidColumns
          (cols.filter (fun c => c ∉ ALL_COLUMNS))) ∧
      cols.filter (fun c => c ∉ ALL_COLUMNS) ≠ []) ∧
    (fq ≠ [] →
      (fq.map Prod.fst).find? (fun c => decide (c ∉ ALL_COLUMNS)) = some f →
      advanced_search fq size = Except.error (SearchError.invalidField f)) := by
  constructor
  · intro h
    have hall : ¬ ((cols.all fun col => decide (col ∈ ALL_COLUMNS)) = true) := by
      simp only [List.all_eq_true, decide_eq_true_eq]
      exact h
    constructor
    · unfold search_columns
      rw [if_neg hall]
    · push_neg at h
      obtain ⟨c, hc, hnc⟩ := h
      have : c ∈ cols.filter (fun c => c ∉ ALL_COLUMNS) := by
        rw [List.mem_filter]
        exact ⟨hc, by simpa using hnc⟩
      exact List.ne_nil_of_mem this
  · intro h0 hfind
    unfold advanced_search
    rw [if_neg h0, buildMust_find hfind]

/-- C4 witness: instantiation at a concrete OR-mode request with one bad
column and a concrete AND-mode request whose single field is undeclared. -/
theorem c4_invalid_column_rejection_witness :
    search_columns ["full_name", "nope"] "q" 10 =
      Except.error (SearchError.invalidColumns ["nope"]) ∧
    advanced_search [("nope2", "v")] 10 =
      Except.error (SearchError.invalidField "nope2") := by
  constructor
  · exact ((c4_invalid_column_rejection ["full_name", "nope"] "q" 10 [] "x").1
      (by decide)).1
  · exact (c4_invalid_column_rejection [] "q" 10 [("nope2", "v")] "nope2").2
      (by decide) rfl

/-! ### Claim C8 -/

/-- C8: in both modes, every successfully built query highlights exactly the
text-kind columns present in the request, and never a tag-kind column. -/
theorem c8_highlight_only_text_columns (cols : List String) (q : String)
    (size : Int) (fq : List (String × String)) :
    (∀ body, search_columns cols q size = Except.ok body →
      (∀ c, c ∈ body.highlightFields ↔ c ∈ cols ∧ c ∈ TEXT_COLUMNS) ∧
      (∀ c, c ∈ body.highlightFields → c ∉ KEYWORD_COLUMNS)) ∧
    (∀ body, advanced_search fq size = Except.ok body →
      (∀ c, c ∈ body.highlightFields ↔ c ∈ fq.map Prod.fst ∧ c ∈ TEXT_COLUMNS) ∧
      (∀ c, c ∈ body.highlightFields → c ∉ KEYWORD_COLUMNS)) := by
  constructor
  · intro body h
    have hh := (search_columns_ok h).1
    have hmem : ∀ c, c ∈ body.highlightFields ↔ c ∈ cols ∧ c ∈ TEXT_COLUMNS := by
      intro c
      rw [hh, mem_dropDuplicates, List.mem_filter]
      simp
    refine ⟨hmem, fun c hc => ?_⟩
    exact text_not_keyword c ((hmem c).mp hc).2
  · intro body h
    have hh := (advanced_search_ok h).1
    have hmem : ∀ c, c ∈ body.highlightFields ↔ c ∈ fq.map Prod.fst ∧ c ∈ TEXT_COLUMNS := by
      intro c
      rw [hh, mem_dropDuplicates, List.mem_filter]
      simp
    refine ⟨hmem, fun c hc => ?_⟩
    exact text_not_keyword c ((hmem c).mp hc).2

/-- C8 witness: concrete requests in both modes; the built bodies highlight
only text columns. -/
theorem c8_highlight_only_text_columns_witness :
    (∃ body, search_columns ["full_name", "skills"] "Python" 10 = Except.ok body ∧
      (∀ c, c ∈ body.highlightFields → c ∉ KEYWORD_COLUMNS)) ∧
    (∃ body, advanced_search [("summary", "ali"), ("skills", "python")] 10 =
        Except.ok body ∧
      (∀ c, c ∈ body.highlightFields → c ∉ KEYWORD_COLUMNS)) := by
  constructor
  · refine ⟨_, rfl, ?_⟩
    exact ((c8_highlight_only_text_columns ["full_name", "skills"] "Python" 10 []).1
      _ rfl).2
  · refine ⟨_, rfl, ?_⟩
    exact ((c8_highlight_only_text_columns [] "Python" 10
      [("summary", "ali"), ("skills", "python")]).2 _ rfl).2

/-! ### Claim C9 -/

/-- C9: neither builder validates the result size: for every integer size,
including zero and negatives, success or failure is unaffected by the size
and a built body carries the given size verbatim; the omitted-size forms pass
the default of 10. -/
theorem c9_size_passed_verbatim (cols : List String) (q : String)
    (fq : List (String × String)) (size size2 : Int) :
    (∀ body, search_columns cols q size = Except.ok body → body.size = size) ∧
    (∀ body, advanced_search fq size = Except.ok body → body.size = size) ∧
    (search_columns cols q size).isOk = (search_columns cols q size2).isOk ∧
    (advanced_search fq size).isOk = (advanced_search fq size2).isOk ∧
    search_columns_default cols q = search_columns cols q 10 ∧
    advanced_search_default fq = advanced_search fq 10 := by
  refine ⟨fun body h => (search_columns_ok h).2,
    fun body h => (advanced_search_ok h).2, ?_, buildMust_sizeless fq size size2,
    rfl, rfl⟩
  unfold search_columns
  split <;> rfl

/-- C9 witness: a negative size is accepted and lands verbatim in the body of
both builders. -/
theorem c9_size_passed_verbatim_witness :
    (∃ body, search_columns ["full_name"] "x" (-5) = Except.ok body ∧
      body.size = -5) ∧
    (∃ body, advanced_search [("skills", "python")] 0 = Except.ok body ∧
      body.size = 0) := by
  constructor
  · refine ⟨_, rfl, ?_⟩
    exact (c9_size_passed_verbatim ["full_name"] "x" [] (-5) 0).1 _ rfl
  · refine ⟨_, rfl, ?_⟩
    exact (c9_size_passed_verbatim [] "x" [("skills", "python")] 0 1).2.1 _ rfl

/-! ### Helper lemmas about stripping -/

lemma toList_mk (l : List Char) : (String.mk l).toList = l := rfl

lemma dropWhile_idem (p : Char → Bool) (l : List Char) :
    (l.dropWhile p).dropWhile p = l.dropWhile p := by
  induction l with
  | nil => rfl
  | cons c rest ih =>
    by_cases hc : p c = true
    · rw [List.dropWhile_cons_of_pos hc, ih]
    · rw [List.dropWhile_cons_of_neg hc, List.dropWhile_cons_of_neg hc]

lemma dropTrail_idem (l : List Char) : dropTrail (dropTrail l) = dropTrail l := by
  unfold dropTrail
  rw [List.reverse_reverse, dropWhile_idem]

lemma dropTrail_head (c : Char) (cs : List Char) :
    dropTrail (c :: cs) = [] ∨ ∃ ds, dropTrail (c :: cs) = c :: ds := by
  unfold dropTrail
  rw [List.reverse_cons, List.dropWhile_append]
  by_cases he : ((cs.reverse.dropWhile pyIsSpace).isEmpty) = true
  · rw [if_pos he]
    by_cases hc : pyIsSpace c = true
    · left
      rw [List.dropWhile_cons_of_pos hc]
      rfl
    · right
      exact ⟨[], by rw [List.dropWhile_cons_of_neg hc]; rfl⟩
  · right
    rw [if_neg he, List.reverse_append]
    exact ⟨(cs.reverse.dropWhile pyIsSpace).reverse, rfl⟩

lemma dropWhile_dropTrail_dropWhile (l : List Char) :
    (dropTrail (l.dropWhile pyIsSpace)).dropWhile pyIsSpace =
      dropTrail (l.dropWhile pyIsSpace) := by
  cases hm : l.dropWhile pyIsSpace with
  | nil => rfl
  | cons c cs =>
    have hc : pyIsSpace c = false := by
      have := List.head?_dropWhile_not pyIsSpace l
      rw [hm] at this
      simpa using this
    rcases dropTrail_head c cs with h | ⟨ds, h⟩
    · rw [h]
      rfl
    · rw [h, List.dropWhile_cons_of_neg (by simp [hc])]

lemma pyStrip_idem (l : List Char) : pyStrip (pyStrip l) = pyStrip l := by
  unfold pyStrip
  rw [dropWhile_dropTrail_dropWhile, dropTrail_idem]

lemma pyStripS_idem (s : String) : pyStripS (pyStripS s) = pyStripS s := by
  unfold pyStripS
  rw [toList_mk, pyStrip_idem]

lemma pyStrip_cons_space (l : List Char) : pyStrip (' ' :: l) = pyStrip l := by
  unfold pyStrip
  rw [List.dropWhile_cons_of_pos (by decide)]

lemma dropTrail_snoc_space (m : List Char) : dropTrail (m ++ [' ']) = dropTrail m := by
  unfold dropTrail
  rw [List.reverse_append, List.reverse_singleton, List.singleton_append,
    List.dropWhile_cons_of_pos (by decide)]

lemma pyStrip_snoc_space (l : List Char) : pyStrip (l ++ [' ']) = pyStrip l := by
  unfold pyStrip
  rw [List.dropWhile_append]
  by_cases he : ((l.dropWhile pyIsSpace).isEmpty) = true
  · rw [if_pos he, List.isEmpty_iff.mp he]
    rfl
  · rw [if_neg he, dropTrail_snoc_space]

/-! ### Helper lemmas about splitting and joining on the pipe character -/

lemma splitPipe_ne_nil (l : List Char) : splitPipe l ≠ [] := by
  induction l with
  | nil => simp [splitPipe]
  | cons c rest ih =>
    unfold splitPipe
    by_cases hc : c = '|'
    · simp [hc]
    · rw [if_neg hc]
      cases h : splitPipe rest <;> simp

lemma splitPipe_append (x l : List Char) (hx : ('|' : Char) ∉ x) (p : List Char)
    (ps : List (List Char)) (h : splitPipe l = p :: ps) :
    splitPipe (x ++ l) = (x ++ p) :: ps := by
  induction x with
  | nil => simpa using h
  | cons c x' ih =>
    have hc : c ≠ '|' := fun hc => hx (hc ▸ List.mem_cons_self c x')
    have hx' : ('|' : Char) ∉ x' := fun hm => hx (List.mem_cons_of_mem c hm)
    rw [List.cons_append, splitPipe, if_neg hc, ih hx']
    rfl

lemma splitPipe_no_pipe (x : List Char) (hx : ('|' : Char) ∉ x) :
    splitPipe x = [x] := by
  have := splitPipe_append x [] hx [] [] rfl
  simpa using this

lemma splitPipe_join (parts : List (List Char))
    (hp : ∀ q ∈ parts, ('|' : Char) ∉ q) (hne : parts ≠ []) :
    (splitPipe (joinPipeL parts)).map pyStrip = parts.map pyStrip := by
  induction parts with
  | nil => exact absurd rfl hne
  | cons x rest ih =>
    cases rest with
    | nil =>
      rw [joinPipeL, splitPipe_no_pipe x (hp x (List.mem_cons_self x []))]
    | cons y rest2 =>
      have hx : ('|' : Char) ∉ x := hp x (List.mem_cons_self x _)
      have hrest : ∀ q ∈ y :: rest2, ('|' : Char) ∉ q := fun q hq =>
        hp q (List.mem_cons_of_mem x hq)
      obtain ⟨p, ps, hsplit⟩ :
          ∃ p ps, splitPipe (joinPipeL (y :: rest2)) = p :: ps := by
        cases h : splitPipe (joinPipeL (y :: rest2)) with
        | nil => exact absurd h (splitPipe_ne_nil _)
        | cons p ps => exact ⟨p, ps, rfl⟩
      have hspace : splitPipe (' ' :: joinPipeL (y :: rest2)) = (' ' :: p) :: ps := by
        rw [splitPipe, if_neg (by decide), hsplit]
      have hsep : splitPipe (' ' :: '|' :: ' ' :: joinPipeL (y :: rest2)) =
          [' '] :: (' ' :: p) :: ps := by
        rw [splitPipe, if_neg (by decide), splitPipe, if_pos rfl, hspace]
      have hjoin : joinPipeL (x :: y :: rest2) =
          x ++ ' ' :: '|' :: ' ' :: joinPipeL (y :: rest2) := rfl
      rw [hjoin, splitPipe_append x _ hx [' '] ((' ' :: p) :: ps) hsep]
      have ihh := ih hrest (by simp)
      rw [hsplit] at ihh
      simp only [List.map_cons] at ihh ⊢
      rw [pyStrip_snoc_space, pyStrip_cons_space, ihh]

/-! ### Helper lemmas about the education extraction loop -/

lemma eduItemName_eq_spec (item : PyVal) : eduItemName item = specSchoolName item := by
  cases item with
  | dictV d =>
    show eduSchool (pyGetStr d "school") = specFromSchool (pyGetStr d "school")
    cases hs : pyGetStr d "school" with
    | none => rfl
    | some v =>
      cases v with
      | dictV sd =>
        show eduName (pyGetStr sd "name") = specFromName (pyGetStr sd "name")
        cases hnm : pyGetStr sd "name" with
        | none => rfl
        | some w =>
          cases w with
          | strV m =>
            show (if pyStripS m ≠ "" then some (pyStripS m) else none) =
              (if pyStripS m = "" then none else some (pyStripS m))
            by_cases hms : pyStripS m = ""
            · rw [if_neg (not_not_intro hms), if_pos hms]
            · rw [if_pos hms, if_neg hms]
          | noneV => rfl
          | boolV b => rfl
          | intV k => rfl
          | floatV lx => rfl
          | listV xs => rfl
          | tupleV xs => rfl
          | setV xs => rfl
          | dictV e2 => rfl
      | noneV => rfl
      | boolV b => rfl
      | intV k => rfl
      | floatV lx => rfl
      | strV m => rfl
      | listV xs => rfl
      | tupleV xs => rfl
      | setV xs => rfl
  | noneV => rfl
  | boolV b => rfl
  | intV k => rfl
  | floatV lx => rfl
  | strV m => rfl
  | listV xs => rfl
  | tupleV xs => rfl
  | setV xs => rfl

lemma eduItemName_some {item : PyVal} {b : String}
    (h : eduItemName item = some b) : b ≠ "" ∧ pyStripS b = b := by
  cases item with
  | dictV d =>
    replace h : eduSchool (pyGetStr d "school") = some b := h
    cases hs : pyGetStr d "school" with
    | none => rw [hs] at h; simp [eduSchool] at h
    | some v =>
      rw [hs] at h
      cases v with
      | dictV sd =>
        replace h : eduName (pyGetStr sd "name") = some b := h
        cases hnm : pyGetStr sd "name" with
        | none => rw [hnm] at h; simp [eduName] at h
        | some w =>
          rw [hnm] at h
          cases w with
          | strV m =>
            replace h : (if pyStripS m ≠ "" then some (pyStripS m) else none) =
              some b := h
            split at h
            · cases h
              rename_i hms
              exact ⟨hms, pyStripS_idem _⟩
            · simp at h
          | noneV => simp [eduName] at h
          | boolV bb => simp [eduName] at h
          | intV k => simp [eduName] at h
          | floatV lx => simp [eduName] at h
          | listV xs => simp [eduName] at h
          | tupleV xs => simp [eduName] at h
          | setV xs => simp [eduName] at h
          | dictV e2 => simp [eduName] at h
      | noneV => simp [eduSchool] at h
      | boolV bb => simp [eduSchool] at h
      | intV k => simp [eduSchool] at h
      | floatV lx => simp [eduSchool] at h
      | strV m => simp [eduSchool] at h
      | listV xs => simp [eduSchool] at h
      | tupleV xs => simp [eduSchool] at h
      | setV xs => simp [eduSchool] at h
  | noneV => simp [eduItemName] at h
  | boolV bb => simp [eduItemName] at h
  | intV k => simp [eduItemName] at h
  | floatV lx => simp [eduItemName] at h
  | strV m => simp [eduItemName] at h
  | listV xs => simp [eduItemName] at h
  | tupleV xs => simp [eduItemName] at h
  | setV xs => simp [eduItemName] at h

lemma eduLoop_mem (items : List PyVal) :
    ∀ n ∈ eduLoop items, n ≠ "" ∧ pyStripS n = n := by
  induction items with
  | nil => intro n hn; simp [eduLoop] at hn
  | cons item rest ih =>
    intro n hn
    rw [eduLoop] at hn
    cases hsp : eduItemName item with
    | none =>
      rw [hsp] at hn
      exact ih n hn
    | some b =>
      rw [hsp] at hn
      rcases List.mem_cons.mp hn with h | h
      · exact h ▸ eduItemName_some hsp
      · exact ih n h

lemma educationNamesOf_mem (raw : String) :
    ∀ n ∈ educationNamesOf raw, n ≠ "" ∧ pyStripS n = n := by
  intro n hn
  simp only [educationNamesOf] at hn
  split at hn
  · simp at hn
  · split at hn
    · simp at hn
    · split at hn
      · exact eduLoop_mem _ n hn
      · simp at hn

lemma joinPipeL_ne_nil (parts : List (List Char)) (hne : parts ≠ [])
    (hq : ∀ q ∈ parts, q ≠ []) : joinPipeL parts ≠ [] := by
  cases parts with
  | nil => exact absurd rfl hne
  | cons x rest =>
    cases rest with
    | nil => exact hq x (List.mem_cons_self x [])
    | cons y rest2 =>
      rw [joinPipeL]
      intro h
      rcases List.append_eq_nil.mp h with ⟨_, h2⟩
      simp at h2

lemma splitClean_join (parts : List String)
    (h : ∀ n ∈ parts, n ≠ "" ∧ pyStripS n = n ∧ ('|' : Char) ∉ n.toList) :
    splitClean (joinPipeS parts) = parts := by
  cases hparts : parts with
  | nil => rfl
  | cons n0 rest =>
    rw [← hparts]
    have hne : parts ≠ [] := by rw [hparts]; simp
    have hjoin_ne : joinPipeS parts ≠ "" := by
      unfold joinPipeS
      intro hj
      have : joinPipeL (parts.map String.toList) = [] := by
        have := congrArg String.toList hj
        simpa using this
      refine joinPipeL_ne_nil _ (by simpa using hne) ?_ this
      intro q hq
      obtain ⟨m, hm, rfl⟩ := List.mem_map.mp hq
      intro h0
      exact (h m hm).1 (by
        have := congrArg String.mk h0
        simpa using this)
    unfold splitClean
    rw [if_neg hjoin_ne]
    unfold joinPipeS
    rw [toList_mk]
    have hmap : (splitPipe (joinPipeL (parts.map String.toList))).map pyStrip =
        (parts.map String.toList).map pyStrip := by
      refine splitPipe_join _ ?_ (by simpa using hne)
      intro q hq
      obtain ⟨m, hm, rfl⟩ := List.mem_map.mp hq
      exact (h m hm).2.2
    have hmap2 : (splitPipe (joinPipeL (parts.map String.toList))).map
        (fun l => String.mk (pyStrip l)) = parts := by
      have e1 : (splitPipe (joinPipeL (parts.map String.toList))).map
          (fun l => String.mk (pyStrip l)) =
          ((splitPipe (joinPipeL (parts.map String.toList))).map pyStrip).map
            String.mk := by
        rw [List.map_map]
        rfl
      rw [e1, hmap, List.map_map, List.map_map]
      conv_rhs => rw [← List.map_id parts]
      refine List.map_congr_left fun m hm => ?_
      exact (h m hm).2.1
    rw [hmap2, List.filter_eq_self]
    intro m hm
    simpa using (h m hm).1

/-! ### Claim C2 -/

lemma dropDupsAux_eq_keepFirstAux {α : Type} [DecidableEq α] (l : List α) :
    ∀ seen earlier : List α, (∀ x, x ∈ seen ↔ x ∈ earlier) →
    dropDupsAux seen l = keepFirstAux earlier l := by
  induction l with
  | nil => intro seen earlier _; rfl
  | cons a rest ih =>
    intro seen earlier hiff
    by_cases ha : a ∈ seen
    · rw [dropDupsAux, if_pos ha, keepFirstAux, if_pos ((hiff a).mp ha)]
      refine ih _ _ fun x => ?_
      rw [hiff x, List.mem_append, List.mem_singleton]
      constructor
      · exact Or.inl
      · rintro (h | h)
        · exact h
        · exact h ▸ (hiff a).mp ha
    · rw [dropDupsAux, if_neg ha, keepFirstAux, if_neg (fun h => ha ((hiff a).mpr h))]
      congr 1
      refine ih _ _ fun x => ?_
      rw [List.mem_cons, hiff x, List.mem_append, List.mem_singleton, Or.comm]

/-- C2 amended: the pipeline deduplicates on the raw cell values, before any
cleaning: it keeps exactly the rows with no earlier raw-identical row (first
occurrence wins, order preserved) and then normalizes each survivor. -/
theorem c2_dedup_on_raw_rows (rows : List RawRecord) :
    ingestDocs rows = (keepFirstSpec rows).map normalizeRecord := by
  unfold ingestDocs dropDuplicates keepFirstSpec
  rw [dropDupsAux_eq_keepFirstAux rows [] [] (fun x => Iff.rfl)]

/-- C2 counterexample: two raw-distinct rows with identical normalized values
both survive the pipeline, refuting deduplication on normalized values. -/
theorem c2_counterexample_normalized_duplicates_kept :
    rowJane1 ≠ rowJane2 ∧
    normalizeRecord rowJane1 = normalizeRecord rowJane2 ∧
    (ingestDocs [rowJane1, rowJane2]).length = 2 := by
  refine ⟨by decide, by decide, by decide⟩

/-! ### Claim C5 -/

/-- C5 counterexample: a list element that is a mapping with a `school`
mapping holding the string name `"   "` contributes nothing to the extracted
names, while the claim demands the stripped (empty) name be emitted. -/
theorem c5_counterexample_blank_name_dropped :
    eduLoop [PyVal.dictV [(PyVal.strV "school",
        PyVal.dictV [(PyVal.strV "name", PyVal.strV "   ")])]] = [] ∧
    pyStripS "   " = "" ∧
    ([] : List String) ≠ [""] := by
  refine ⟨rfl, rfl, by decide⟩

/-- C5 amended: the education extraction is exactly the ordered projection of
the stripped school names over elements that are mappings with a `school`
mapping holding a string `name`, excluding names that strip to empty. -/
theorem c5_education_projection (items : List PyVal) :
    eduLoop items = items.filterMap specSchoolName := by
  induction items with
  | nil => rfl
  | cons item rest ih =>
    rw [List.filterMap_cons, eduLoop, eduItemName_eq_spec]
    cases hsp : specSchoolName item with
    | none => exact ih
    | some b => exact congrArg (List.cons b) ih

/-! ### Claim C3 -/

/-- C3 counterexample: a school name containing the pipe character is
extracted as the single name `"A|B"` but reaches the store split into two
elements, refuting that every extracted name appears as one element. -/
theorem c3_counterexample_pipe_name_split :
    educationNamesOf eduPipeCell = ["A|B"] ∧
    ingestEducation eduPipeCell = ["A", "B"] ∧
    (["A", "B"] : List String) ≠ ["A|B"] := by
  refine ⟨rfl, rfl, by decide⟩

/-- C3 amended: whenever no extracted school name contains the pipe
character, the education value handed downstream is exactly the ordered list
of extracted names; a name containing a pipe is split at each pipe instead. -/
theorem c3_education_sequence (raw : String)
    (hpipe : ∀ n ∈ educationNamesOf raw, ('|' : Char) ∉ n.toList) :
    ingestEducation raw = educationNamesOf raw := by
  unfold ingestEducation clean_education
  refine splitClean_join _ fun n hn => ?_
  obtain ⟨h1, h2⟩ := educationNamesOf_mem raw n hn
  exact ⟨h1, h2, hpipe n hn⟩

/-- C3 witness: on a cell with two pipe-free school names the downstream
value is exactly the extracted name sequence. -/
theorem c3_education_sequence_witness :
    ingestEducation eduTwoSchools = educationNamesOf eduTwoSchools ∧
    educationNamesOf eduTwoSchools = ["MIT", "Cairo Univ"] := by
  refine ⟨c3_education_sequence eduTwoSchools (by decide), by decide⟩

/-! ### Helper lemmas about whitespace collapsing -/

lemma collapseAux_true_head : ∀ (l : List Char) (c : Char) (cs : List Char),
    collapseAux true l = c :: cs → pyIsSpace c = false := by
  intro l
  induction l with
  | nil => intro c cs h; cases h
  | cons d rest ih =>
    intro c cs h
    by_cases hd : pyIsSpace d = true
    · rw [collapseAux, if_pos hd] at h
      exact ih c cs h
    · rw [collapseAux, if_neg hd] at h
      cases h
      exact Bool.eq_false_iff.mpr hd

lemma chain_collapseAux (l : List Char) : ∀ b, NoAdjSpace (collapseAux b l) := by
  induction l with
  | nil => intro b; exact List.chain'_nil
  | cons d rest ih =>
    intro b
    by_cases hd : pyIsSpace d = true
    · cases b
      · rw [collapseAux, if_pos hd]
        show NoAdjSpace (' ' :: collapseAux true rest)
        rw [NoAdjSpace, List.chain'_cons']
        refine ⟨fun y hy => ?_, ih true⟩
        cases hcol : collapseAux true rest with
        | nil => rw [hcol] at hy; cases hy
        | cons c cs =>
          rw [hcol] at hy
          have hyc : y = c := by
            have h3 : c = y := by simpa using hy
            exact h3.symm
          have hhd := collapseAux_true_head rest c cs hcol
          rintro ⟨_, h2⟩
          rw [hyc, hhd] at h2
          cases h2
      · rw [collapseAux, if_pos hd]
        exact ih true
    · rw [collapseAux, if_neg hd]
      rw [NoAdjSpace, List.chain'_cons']
      refine ⟨fun y hy => ?_, ih false⟩
      rintro ⟨h1, _⟩
      rw [h1] at hd
      exact hd rfl

lemma mem_collapseAux (l : List Char) : ∀ (b : Bool) (c : Char),
    c ∈ collapseAux b l → c = ' ' ∨ (c ∈ l ∧ pyIsSpace c = false) := by
  induction l with
  | nil => intro b c h; cases h
  | cons d rest ih =>
    intro b c h
    by_cases hd : pyIsSpace d = true
    · cases b
      · rw [collapseAux, if_pos hd] at h
        rcases List.mem_cons.mp h with h1 | h1
        · exact Or.inl h1
        · rcases ih true c h1 with h2 | ⟨h2, h3⟩
          · exact Or.inl h2
          · exact Or.inr ⟨List.mem_cons_of_mem _ h2, h3⟩
      · rw [collapseAux, if_pos hd] at h
        rcases ih true c h with h2 | ⟨h2, h3⟩
        · exact Or.inl h2
        · exact Or.inr ⟨List.mem_cons_of_mem _ h2, h3⟩
    · rw [collapseAux, if_neg hd] at h
      rcases List.mem_cons.mp h with h1 | h1
      · exact Or.inr ⟨h1 ▸ List.mem_cons_self d rest, h1 ▸ Bool.eq_false_iff.mpr hd⟩
      · rcases ih false c h1 with h2 | ⟨h2, h3⟩
        · exact Or.inl h2
        · exact Or.inr ⟨List.mem_cons_of_mem _ h2, h3⟩

lemma collapse_fixed (l : List Char) (hsp : ∀ c ∈ l, pyIsSpace c = true → c = ' ')
    (hch : NoAdjSpace l) :
    collapseAux false l = l ∧
    (∀ c cs, l = c :: cs → pyIsSpace c = false → collapseAux true l = l) := by
  induction l with
  | nil => exact ⟨rfl, fun c cs h => by cases h⟩
  | cons d rest ih =>
    have hsp' : ∀ c ∈ rest, pyIsSpace c = true → c = ' ' := fun c hc =>
      hsp c (List.mem_cons_of_mem _ hc)
    have hch' : NoAdjSpace rest := (List.chain'_cons'.mp hch).2
    obtain ⟨ihf, iht⟩ := ih hsp' hch'
    constructor
    · by_cases hd : pyIsSpace d = true
      · have hd' : d = ' ' := hsp d (List.mem_cons_self d rest) hd
        rw [collapseAux, if_pos hd, ← hd']
        cases rest with
        | nil => rfl
        | cons e rest2 =>
          have he : pyIsSpace e = false := by
            have := (List.chain'_cons'.mp hch).1 e rfl
            by_cases hee : pyIsSpace e = true
            · exact absurd ⟨hd, hee⟩ this
            · exact Bool.eq_false_iff.mpr hee
          rw [iht e rest2 rfl he]
          rfl
      · rw [collapseAux, if_neg hd, ihf]
    · intro c cs heq hc
      cases heq
      rw [collapseAux, if_neg (Bool.eq_false_iff.mp hc), ihf]

lemma chain_dropWhile {P : Char → Char → Prop} (p : Char → Bool) (l : List Char)
    (h : l.Chain' P) : (l.dropWhile p).Chain' P := by
  induction l with
  | nil => exact h
  | cons c rest ih =>
    by_cases hc : p c = true
    · rw [List.dropWhile_cons_of_pos hc]
      exact ih (List.chain'_cons'.mp h).2
    · rw [List.dropWhile_cons_of_neg (by simp [hc])]
      exact h

lemma noAdj_dropWhile (p : Char → Bool) (l : List Char) (h : NoAdjSpace l) :
    NoAdjSpace (l.dropWhile p) :=
  chain_dropWhile p l h

lemma noAdj_reverse (l : List Char) (h : NoAdjSpace l) : NoAdjSpace l.reverse := by
  rw [NoAdjSpace, List.chain'_reverse]
  exact h.imp fun a b hab => fun ⟨h1, h2⟩ => hab ⟨h2, h1⟩

lemma noAdj_dropTrail (l : List Char) (h : NoAdjSpace l) : NoAdjSpace (dropTrail l) := by
  unfold dropTrail
  exact noAdj_reverse _ (noAdj_dropWhile _ _ (noAdj_reverse _ h))

lemma noAdj_pyStrip (l : List Char) (h : NoAdjSpace l) : NoAdjSpace (pyStrip l) := by
  unfold pyStrip
  exact noAdj_dropTrail _ (noAdj_dropWhile _ _ h)

lemma mem_dropTrail (l : List Char) (c : Char) (h : c ∈ dropTrail l) : c ∈ l := by
  unfold dropTrail at h
  rw [List.mem_reverse] at h
  have := (List.dropWhile_sublist pyIsSpace).mem h
  rw [List.mem_reverse] at this
  exact this

lemma mem_pyStrip (l : List Char) (c : Char) (h : c ∈ pyStrip l) : c ∈ l := by
  unfold pyStrip at h
  exact (List.dropWhile_sublist pyIsSpace).mem (mem_dropTrail _ c h)

/-! ### Idempotence of the pass-through cleaners -/

lemma passthrough_idem (g : List Char → List Char) (guard : List Char → Bool)
    (hg : ∀ u, g u = if u = [] then [] else if guard (pyStrip u) then [] else pyStrip u) :
    ∀ u, g (g u) = g u := by
  intro u
  have g0 : g [] = [] := by rw [hg]; simp
  by_cases h0 : u = []
  · rw [h0, g0, g0]
  · by_cases h1 : guard (pyStrip u) = true
    · have hval : g u = [] := by rw [hg u, if_neg h0, if_pos h1]
      rw [hval, g0]
    · have hval : g u = pyStrip u := by rw [hg u, if_neg h0, if_neg h1]
      rw [hval]
      by_cases h2 : pyStrip u = []
      · rw [h2]
        exact g0
      · rw [hg (pyStrip u), if_neg h2, pyStrip_idem u, if_neg h1]

lemma cleanJobTitleL_idem (u : List Char) :
    cleanJobTitleL (cleanJobTitleL u) = cleanJobTitleL u :=
  passthrough_idem cleanJobTitleL looksSerialized (fun _ => rfl) u

lemma cleanSummaryL_idem (u : List Char) :
    cleanSummaryL (cleanSummaryL u) = cleanSummaryL u := by
  refine passthrough_idem cleanSummaryL
    (fun t => looksSerialized t || (isIntRange t || isIntPlus t || isSimpleFloat t))
    (fun v => ?_) u
  simp only [cleanSummaryL]
  by_cases h0 : v = []
  · simp [h0]
  · simp only [if_neg h0]
    by_cases h1 : looksSerialized (pyStrip v) = true
    · simp [h1]
    · simp [h1]

lemma cleanLocationCountryL_idem (u : List Char) :
    cleanLocationCountryL (cleanLocationCountryL u) = cleanLocationCountryL u := by
  refine passthrough_idem cleanLocationCountryL
    (fun t => looksSerialized t || isDateYMD t || isCommaRange t ||
      (isLtNum t || isGtNum t) || isSimpleFloat t || decide (t.length = 1))
    (fun v => ?_) u
  simp only [cleanLocationCountryL]
  by_cases h0 : v = []
  · simp [h0]
  · simp only [if_neg h0]
    by_cases h1 : looksSerialized (pyStrip v) = true
    · simp [h1]
    · by_cases h2 : isDateYMD (pyStrip v) = true
      · simp [h1, h2]
      · by_cases h3 : isCommaRange (pyStrip v) = true
        · simp [h1, h2, h3]
        · by_cases h4 : (isLtNum (pyStrip v) || isGtNum (pyStrip v)) = true
          · simp [h1, h2, h3, h4]
          · by_cases h5 : isSimpleFloat (pyStrip v) = true
            · simp [h1, h2, h3, h4, h5]
            · by_cases h6 : (pyStrip v).length = 1
              · simp [h1, h2, h3, h4, h5, h6]
              · simp [h1, h2, h3, h4, h5, h6]

lemma cleanJobSummaryL_idem (u : List Char) :
    cleanJobSummaryL (cleanJobSummaryL u) = cleanJobSummaryL u := by
  refine passthrough_idem cleanJobSummaryL
    (fun t => decide (t.length = 1) || (decide (t ≠ []) && t.all Char.isDigit) ||
      isDateYMorYMD t)
    (fun v => ?_) u
  rfl

/-! ### Idempotence of the industry cleaner -/

lemma headIs_mem (ch : Char) (l : List Char) (h : headIs ch l = true) : ch ∈ l := by
  cases l with
  | nil => cases h
  | cons a rest =>
    have : a = ch := by simpa [headIs] using h
    exact this ▸ List.mem_cons_self a rest

lemma cleanIndustryL_idem (u : List Char) :
    cleanIndustryL (cleanIndustryL u) = cleanIndustryL u := by
  have hdef : ∀ v : List Char, cleanIndustryL v =
      if v = [] then []
      else if looksSerialized (pyStrip v) || (pyStrip v).any Char.isDigit then []
      else if (pyStrip v).any (fun c => !industryAllowed c) then []
      else pyStrip (collapseAux false (pyStrip v)) := fun v => rfl
  have h00 : cleanIndustryL [] = [] := rfl
  by_cases hu : u = []
  · rw [hu, h00, h00]
  · by_cases h1 : (looksSerialized (pyStrip u) || (pyStrip u).any Char.isDigit) = true
    · have hz : cleanIndustryL u = [] := by rw [hdef u, if_neg hu, if_pos h1]
      rw [hz, h00]
    · by_cases h2 : ((pyStrip u).any (fun c => !industryAllowed c)) = true
      · have hz : cleanIndustryL u = [] := by
          rw [hdef u, if_neg hu, if_neg h1, if_pos h2]
        rw [hz, h00]
      · have hval : cleanIndustryL u = pyStrip (collapseAux false (pyStrip u)) := by
          rw [hdef u, if_neg hu, if_neg h1, if_neg h2]
        rw [hval]
        set t := pyStrip u with ht
        set r := pyStrip (collapseAux false t) with hr
        rw [Bool.or_eq_true] at h1
        push_neg at h1
        have hser : looksSerialized t = false := Bool.eq_false_iff.mpr h1.1
        have hdigall : t.any Char.isDigit = false := Bool.eq_false_iff.mpr h1.2
        have hdig : ∀ c ∈ t, Char.isDigit c = false := by
          intro c hc
          exact Bool.eq_false_iff.mpr (List.any_eq_false.mp hdigall c hc)
        have hall : ∀ c ∈ t, industryAllowed c = true := by
          intro c hc
          have := List.any_eq_false.mp (Bool.eq_false_iff.mpr h2) c hc
          simpa using this
        have hr_char : ∀ c ∈ r, c = ' ' ∨ (c ∈ t ∧ pyIsSpace c = false) := by
          intro c hc
          exact mem_collapseAux t false c (mem_pyStrip _ c hc)
        have hrall : ∀ c ∈ r, industryAllowed c = true := by
          intro c hc
          rcases hr_char c hc with h | ⟨h, _⟩
          · rw [h]; decide
          · exact hall c h
        have hrdig : ∀ c ∈ r, Char.isDigit c = false := by
          intro c hc
          rcases hr_char c hc with h | ⟨h, _⟩
          · rw [h]; decide
          · exact hdig c h
        have hstrip : pyStrip r = r := by
          rw [hr]
          exact pyStrip_idem _
        have hnotmem : ∀ ch : Char, industryAllowed ch = false → ch ∉ r := by
          intro ch hch hmem
          rw [hrall ch hmem] at hch
          cases hch
        have hlser : looksSerialized r = false := by
          have hb1 : headIs '[' r = false := by
            by_cases hb : headIs '[' r = true
            · exact absurd (headIs_mem _ _ hb) (hnotmem '[' (by decide))
            · exact Bool.eq_false_iff.mpr hb
          have hb2 : headIs '{' r = false := by
            by_cases hb : headIs '{' r = true
            · exact absurd (headIs_mem _ _ hb) (hnotmem '{' (by decide))
            · exact Bool.eq_false_iff.mpr hb
          have hb3 : r ≠ ['[', ']'] := by
            intro hb
            exact hnotmem '[' (by decide) (hb ▸ List.mem_cons_self _ _)
          simp [looksSerialized, hb1, hb2, hb3]
        have hranydig : r.any Char.isDigit = false :=
          List.any_eq_false.mpr fun c hc => by rw [hrdig c hc]; exact Bool.false_ne_true
        have hranybad : (r.any fun c => !industryAllowed c) = false :=
          List.any_eq_false.mpr fun c hc => by
            rw [hrall c hc]
            exact Bool.false_ne_true
        have hsp : ∀ c ∈ r, pyIsSpace c = true → c = ' ' := by
          intro c hc hspc
          rcases hr_char c hc with h | ⟨_, h⟩
          · exact h
          · rw [h] at hspc; cases hspc
        have hch : NoAdjSpace r := by
          rw [hr]
          exact noAdj_pyStrip _ (chain_collapseAux t false)
        have hcol : collapseAux false r = r := (collapse_fixed r hsp hch).1
        by_cases hr0 : r = []
        · rw [hr0, h00]
        · rw [hdef r, if_neg hr0, hstrip, if_neg (by rw [hlser, hranydig]; decide),
            if_neg (by rw [hranybad]; exact Bool.false_ne_true), hcol, hstrip]

/-! ### Claim C1 -/

/-- C1 counterexample: re-cleaning is not idempotent for every column.  A
cleaned education value is no longer a list literal, so a second pass maps
`"MIT"` to `""`; and `clean_full_name` can keep a leading space on the first
pass that a second pass strips. -/
theorem c1_counterexample_not_idempotent :
    clean_education (clean_education eduMITCell) ≠ clean_education eduMITCell ∧
    clean_full_name (clean_full_name ". a") ≠ clean_full_name ". a" := by
  constructor <;> decide

/-- C1 amended: cleaning is idempotent for the five pass-through text
columns job_title, industry, summary, location_country and job_summary.  It
fails for full_name, whose first pass can leave boundary whitespace, and for
the tag columns education, experience and skills, whose nonempty outputs are
no longer list literals. -/
theorem c1_idempotence_five_columns (s : String) :
    clean_job_title (clean_job_title s) = clean_job_title s ∧
    clean_industry (clean_industry s) = clean_industry s ∧
    clean_summary (clean_summary s) = clean_summary s ∧
    clean_location_country (clean_location_country s) = clean_location_country s ∧
    clean_job_summary (clean_job_summary s) = clean_job_summary s :=
  ⟨congrArg String.mk (cleanJobTitleL_idem s.toList),
   congrArg String.mk (cleanIndustryL_idem s.toList),
   congrArg String.mk (cleanSummaryL_idem s.toList),
   congrArg String.mk (cleanLocationCountryL_idem s.toList),
   congrArg String.mk (cleanJobSummaryL_idem s.toList)⟩

/-! ### Claim C10 -/

/-- C10: for every input, the cleaned full name consists only of ASCII
letters and spaces, and never contains two adjacent spaces. -/
theorem c10_full_name_charset (s : String) :
    (∀ c ∈ (clean_full_name s).toList, c.isAlpha = true ∨ c = ' ') ∧
    (clean_full_name s).toList.Chain' (fun a b => ¬(a = ' ' ∧ b = ' ')) := by
  have hfn : (clean_full_name s).toList = cleanFullNameL s.toList := rfl
  have hdef : cleanFullNameL s.toList =
      if s.toList = [] then []
      else if (pyStrip s.toList).contains '\\' || (pyStrip s.toList).contains '/' ||
          hasDriveLetter (pyStrip s.toList) || endsWithExt (pyStrip s.toList) then []
      else collapseAux false
        ((pyStrip s.toList).filter (fun c => c.isAlpha || pyIsSpace c)) := rfl
  rw [hfn, hdef]
  split
  · exact ⟨fun c hc => absurd hc (List.not_mem_nil c), List.chain'_nil⟩
  · split
    · exact ⟨fun c hc => absurd hc (List.not_mem_nil c), List.chain'_nil⟩
    · constructor
      · intro c hc
        rcases mem_collapseAux _ false c hc with h | ⟨hmem, hsp⟩
        · exact Or.inr h
        · left
          have := (List.mem_filter.mp hmem).2
          rcases Bool.or_eq_true_iff.mp this with h | h
          · exact h
          · rw [h] at hsp
            cases hsp
      · refine (chain_collapseAux _ false).imp fun a b hab => ?_
        rintro ⟨ha, hb⟩
        exact hab ⟨by rw [ha]; decide, by rw [hb]; decide⟩

/-! ### Claim C6 -/

lemma educationNamesOf_eq_nil_of_parse {s : String}
    (h : ∀ items, literal_eval (String.mk (pyStrip s.toList)) ≠
      some (PyVal.listV items)) :
    educationNamesOf s = [] := by
  have hdef : educationNamesOf s =
      if s = "" then []
      else if !(headIs '[' (pyStrip s.toList) && lastIs ']' (pyStrip s.toList)) then []
      else
        match literal_eval (String.mk (pyStrip s.toList)) with
        | some (PyVal.listV items) => eduLoop items
        | _ => [] := rfl
  rw [hdef]
  split
  · rfl
  · split
    · rfl
    · split
      · rename_i items heq
        exact absurd heq (h items)
      · rfl

lemma experienceItemsOf_eq_nil_of_parse {s : String}
    (h : ∀ items, literal_eval (String.mk (pyStrip s.toList)) ≠
      some (PyVal.listV items)) :
    experienceItemsOf s = [] := by
  have hdef : experienceItemsOf s =
      if s = "" then []
      else if !(headIs '[' (pyStrip s.toList) && lastIs ']' (pyStrip s.toList)) then []
      else
        match literal_eval (String.mk (pyStrip s.toList)) with
        | some (PyVal.listV items) => expLoop items
        | _ => [] := rfl
  rw [hdef]
  split
  · rfl
  · split
    · rfl
    · split
      · rename_i items heq
        exact absurd heq (h items)
      · rfl

lemma skillsItemsOf_eq_nil_of_parse {s : String}
    (h : ∀ items, literal_eval (String.mk (pyStrip s.toList)) ≠
      some (PyVal.listV items)) :
    skillsItemsOf s = [] := by
  have hdef : skillsItemsOf s =
      if s = "" then []
      else if !(headIs '[' (pyStrip s.toList) && lastIs ']' (pyStrip s.toList)) then []
      else
        match literal_eval (String.mk (pyStrip s.toList)) with
        | some (PyVal.listV items) => skillsLoop items
        | _ => [] := rfl
  rw [hdef]
  split
  · rfl
  · split
    · rfl
    · split
      · rename_i items heq
        exact absurd heq (h items)
      · rfl

lemma tag_cleaners_empty_of_no_list {s : String}
    (h : ∀ items, literal_eval (String.mk (pyStrip s.toList)) ≠
      some (PyVal.listV items)) :
    clean_education s = "" ∧ clean_experience s = "" ∧ clean_skills s = "" := by
  refine ⟨?_, ?_, ?_⟩
  · rw [clean_education, educationNamesOf_eq_nil_of_parse h]
    rfl
  · rw [clean_experience, experienceItemsOf_eq_nil_of_parse h]
    rfl
  · rw [clean_skills, skillsItemsOf_eq_nil_of_parse h]
    rfl

/-- C6: dispatch succeeds exactly on the nine declared columns (an unknown
column is an error at `get_cleaner` time, never at data level), and on any
cell whose literal parse fails or yields a non-list the tag cleaners return
the empty value instead of raising — in this embedding the cleaners are
total Lean functions, so no string input can make them fail. -/
theorem c6_normalize_total (col s : String) :
    ((get_cleaner col).isOk = true ↔ col ∈ columnsList) ∧
    (literal_eval (pyStripS s) = none →
      clean_education s = "" ∧ clean_experience s = "" ∧ clean_skills s = "") ∧
    (∀ v, literal_eval (pyStripS s) = some v →
      (∀ items, v ≠ PyVal.listV items) →
      clean_education s = "" ∧ clean_experience s = "" ∧ clean_skills s = "") := by
  refine ⟨⟨?_, ?_⟩, ?_, ?_⟩
  · intro h
    unfold get_cleaner at h
    cases hf : cleaners.find? (fun p => p.1 = col) with
    | none => rw [hf] at h; cases h
    | some p =>
      have hmem : p ∈ cleaners := List.mem_of_find?_eq_some hf
      have hcol : p.1 = col := by
        have := List.find?_some hf
        simpa using this
      have hfst : p.1 ∈ cleaners.map Prod.fst := List.mem_map_of_mem Prod.fst hmem
      have hlist : cleaners.map Prod.fst = columnsList := rfl
      rw [hlist] at hfst
      exact hcol ▸ hfst
  · intro h
    fin_cases h <;> rfl
  · intro hparse
    have h' : ∀ items, literal_eval (String.mk (pyStrip s.toList)) ≠
        some (PyVal.listV items) := by
      intro items heq
      have hparse' : literal_eval (String.mk (pyStrip s.toList)) = none := hparse
      rw [hparse'] at heq
      cases heq
    exact tag_cleaners_empty_of_no_list h'
  · intro v hv hnl
    have h' : ∀ items, literal_eval (String.mk (pyStrip s.toList)) ≠
        some (PyVal.listV items) := by
      intro items heq
      have hv' : literal_eval (String.mk (pyStrip s.toList)) = some v := hv
      exact hnl items (Option.some.inj (hv'.symm.trans heq))
    exact tag_cleaners_empty_of_no_list h'

/-- C6 witness: dispatch succeeds on `education`; an unclosed list literal
and a non-list literal both degrade every tag cleaner to empty. -/
theorem c6_normalize_total_witness :
    ((get_cleaner "education").isOk = true ↔ "education" ∈ columnsList) ∧
    (clean_education "[1,2" = "" ∧ clean_experience "[1,2" = "" ∧
      clean_skills "[1,2" = "") ∧
    (clean_education "7" = "" ∧ clean_experience "7" = "" ∧
      clean_skills "7" = "") :=
  ⟨(c6_normalize_total "education" "x").1,
   (c6_normalize_total "x" "[1,2").2.1 (by rfl),
   (c6_normalize_total "x" "7").2.2 (PyVal.intV 7) (by rfl)
     (fun items h => PyVal.noConfusion h)⟩

end LinkedInSearch
